import Mathlib

/-!
# Verification of the Penumbra core against its specification

Shallow embedding of the parts of the Penumbra MTK flashing toolkit that the
frozen claims are about, together with proofs settling each claim.

* `src/core/src/utilities/patching.rs` — hex-pattern search / patch application
* `src/core/src/da/xml/patch.rs` — DA2 patcher (`is_arm64`, `find_sej_base`,
  `patch_lock_state`, `get_v6_payload`)
* `src/core/src/da/xml/sec.rs`, `src/core/src/da/xflash/sec.rs` — seccfg parsing
* `src/core/src/error.rs` — XFlash / XML error mapping
* `src/core/src/connection/port.rs` — known USB ports table
* `src/core/src/core/auth/sla.rs`, `local_keyring.rs` — SLA signer registry

Machine integers are modelled as `Nat` (byte lists for buffers); fallible code
returns `Option`/`Except`.
-/

namespace Penumbra

/-! ## Embedding of `src/core/src/utilities/patching.rs` -/

/-- `usize::MAX`, the `HEX_NOT_FOUND` sentinel. -/
def HEX_NOT_FOUND : Nat := 18446744073709551615

/-- `type HexPattern = Vec<Option<u8>>`: `none` is the `XX` wildcard. -/
abbrev HexPattern := List (Option Nat)

/-- Characters removed by `parse_pattern`'s filter: whitespace, `,`, `-`, `:`. -/
def isPatternSep (c : Char) : Bool :=
  c.isWhitespace || c = ',' || c = '-' || c = ':'

/-- Value of a single hexadecimal digit, as in `u8::from_str_radix(_, 16)`. -/
def hexDigitVal (c : Char) : Option Nat :=
  if '0' ≤ c ∧ c ≤ '9' then some (c.toNat - '0'.toNat)
  else if 'a' ≤ c ∧ c ≤ 'f' then some (c.toNat - 'a'.toNat + 10)
  else if 'A' ≤ c ∧ c ≤ 'F' then some (c.toNat - 'A'.toNat + 10)
  else none

/-- One two-character chunk of a pattern: `XX` (case-insensitive) is the
wildcard, otherwise the chunk must parse as a hex byte
(`u8::from_str_radix` also accepts a leading `+`). -/
def parsePair (a b : Char) : Option (Option Nat) :=
  if (a = 'X' ∨ a = 'x') ∧ (b = 'X' ∨ b = 'x') then some none
  else
    match hexDigitVal a, hexDigitVal b with
    | some ha, some hb => some (some (16 * ha + hb))
    | _, _ => if a = '+' then (hexDigitVal b).map some else none

/-- Chunk the filtered characters into pairs; an odd number of characters is
the `Pattern has an odd number of hex digits` error. -/
def parsePairs : List Char → Option HexPattern
  | [] => some []
  | [_] => none
  | a :: b :: rest => do
    let p ← parsePair a b
    let ps ← parsePairs rest
    pure (p :: ps)

/-- `parse_pattern` from `patching.rs`: filter separators, then parse pairs. -/
def parse_pattern (input : List Char) : Option HexPattern :=
  parsePairs (input.filter (fun c => !isPatternSep c))

/-- `pattern_matches`: zip the pattern with the window; wildcard positions
match anything. -/
def pattern_matches (window : List Nat) (pat : HexPattern) : Bool :=
  (pat.zip window).all fun pb =>
    match pb.1 with
    | none => true
    | some v => v == pb.2

/-- The window of `data` of length `n` starting at index `i`. -/
def window_at (data : List Nat) (i n : Nat) : List Nat :=
  (data.drop i).take n

/-- The iteration `data.windows(len).enumerate().skip(offset)` searching for
the first matching window: candidate indices are
`offset, …, data.length - pat.length`. -/
def find_pattern_core (data : List Nat) (pat : HexPattern) (offset : Nat) : Nat :=
  match (List.range' offset (data.length + 1 - pat.length - offset)).find?
      (fun i => pattern_matches (window_at data i pat.length) pat) with
  | some i => i
  | none => HEX_NOT_FOUND

/-- `find_pattern` from `patching.rs`. -/
def find_pattern (data : List Nat) (pattern_str : List Char) (offset : Nat) : Nat :=
  match parse_pattern pattern_str with
  | none => HEX_NOT_FOUND
  | some pat =>
    if pat.isEmpty ∨ offset > data.length - pat.length then HEX_NOT_FOUND
    else find_pattern_core data pat offset

/-- The write loop of `patch`: for each `Some(b)` at position `i` set
`data[offset + i] = b`; wildcards skip. -/
def write_bytes (data : List Nat) (offset : Nat) : HexPattern → List Nat
  | [] => data
  | none :: rest => write_bytes data (offset + 1) rest
  | some b :: rest => write_bytes (data.set offset b) (offset + 1) rest

/-- `patch` from `patching.rs`, wrap-free reading: the bounds check
`offset + patch.len() > data.len()` is taken over mathematical integers.
This agrees with the source exactly when `offset + patch.len()` fits in
`usize` (in particular whenever `offset + patch.len() ≤ data.len()`, the
regime in which `patch_lock_state` invokes it); the faithful release-build
`usize` semantics, where the sum wraps, is `patch_usize` below.  The Rust
function mutates the buffer in place and returns `Result<()>`; the
embedding returns the final buffer alongside the result (the bounds check
happens before any write, so on error the buffer is returned untouched). -/
def patch (data : List Nat) (offset : Nat) (patch_str : List Char) :
    Except String Unit × List Nat :=
  match parse_pattern patch_str with
  | none => (.error "invalid pattern", data)
  | some p =>
    if offset + p.length > data.length then (.error "Patch exceeds data bounds", data)
    else (.ok (), write_bytes data offset p)

/-- `2^64`, the modulus of `usize` arithmetic. -/
def USIZE_SIZE : Nat := 18446744073709551616

/-- The write loop of `patch` under release-build `usize` semantics: the
write `data[offset + i] = b` indexes at `(offset + i) % 2^64`, and an
out-of-range index panics (`none`).  Wildcards perform no access. -/
def write_bytes_usize (data : List Nat) (offset : Nat) : HexPattern → Option (List Nat)
  | [] => some data
  | none :: rest => write_bytes_usize data (offset + 1) rest
  | some b :: rest =>
    if offset % USIZE_SIZE < data.length then
      write_bytes_usize (data.set (offset % USIZE_SIZE) b) (offset + 1) rest
    else none

/-- `patch` from `patching.rs` under release-build `usize` semantics: the
bounds check compares the wrapping sum `(offset + patch.len()) % 2^64`
against the buffer length, so when the sum overflows no error is returned
and the write loop runs (in a debug build the overflowing addition itself
panics; either way the bounds error is not returned).  Panics are `none`. -/
def patch_usize (data : List Nat) (offset : Nat) (patch_str : List Char) :
    Option (Except String Unit × List Nat) :=
  match parse_pattern patch_str with
  | none => some (.error "invalid pattern", data)
  | some p =>
    if (offset + p.length) % USIZE_SIZE > data.length then
      some (.error "Patch exceeds data bounds", data)
    else (write_bytes_usize data offset p).map (fun d => (.ok (), d))

/-- `bytes_to_hex`: one uppercase hex digit. -/
def toHexChar (d : Nat) : Char :=
  if d < 10 then Char.ofNat ('0'.toNat + d) else Char.ofNat ('A'.toNat + (d - 10))

/-- `bytes_to_hex` from `patching.rs` (as a character list). -/
def bytes_to_hex : List Nat → List Char
  | [] => []
  | b :: rest => toHexChar (b / 16) :: toHexChar (b % 16) :: bytes_to_hex rest

/-- `contains_bytes` from `patching.rs`: first index at which `pat` occurs as
an exact window of `data`.  (Rust's `windows(0)` panics, so the embedding is
only used with nonempty `pat`.) -/
def contains_bytes (data pat : List Nat) : Nat :=
  if data.isEmpty ∨ pat.length > data.length then HEX_NOT_FOUND
  else
    match (List.range' 0 (data.length + 1 - pat.length)).find?
        (fun i => window_at data i pat.length == pat) with
    | some i => i
    | none => HEX_NOT_FOUND

/-! ## Spec-side predicates for the patching claims -/

/-- The claim's matching relation: pattern `p` matches `data` at index `i`
when the window fits and every non-wildcard byte of `p` at position `k`
equals `data[i + k]`. -/
def matches_at (data : List Nat) (p : HexPattern) (i : Nat) : Bool :=
  decide (i + p.length ≤ data.length) &&
    (List.range p.length).all fun k =>
      match p.getD k none with
      | none => true
      | some b => data.getD (i + k) 0 == b

/-- The claim's notion of a contiguous byte substring. -/
def occurs_in (pat data : List Nat) : Prop :=
  ∃ s t, s ++ pat ++ t = data

/-! ## Embedding of `src/core/src/da/xml/patch.rs` -/

def SEJ_BASE_PATTERN_ARM64 : List Char := String.toList "0801XX52XX00805208XXXX72"

def SEJ_BASE_PATTERN_ARM64_ALT : List Char := String.toList "0901XX52XX031faa09XXXX72"

def SEJ_BASE_PATTERN_ARM : List Char := String.toList "0800XXE30210A0E3XXXX41E3"

/-- `b"PENUMBRAV6P"`. -/
def V6_PAYLOAD_MAGIC : List Nat :=
  [0x50, 0x45, 0x4E, 0x55, 0x4D, 0x42, 0x52, 0x41, 0x56, 0x36, 0x50]

/-- `is_arm64`: `data.len() > 4 && data[0..4] == [0xC6, 0x01, 0x00, 0x58]`. -/
def is_arm64 (data : List Nat) : Bool :=
  decide (data.length > 4) && decide (data.take 4 = [0xC6, 0x01, 0x00, 0x58])

/-- `read_le32`: `u32::from_le_bytes` of `data[offset..offset+4]`. -/
def read_le32 (data : List Nat) (offset : Nat) : Nat :=
  data.getD offset 0 + 2 ^ 8 * data.getD (offset + 1) 0 +
    2 ^ 16 * data.getD (offset + 2) 0 + 2 ^ 24 * data.getD (offset + 3) 0

/-- `find_sej_base` from `patch.rs`: locate a MOV/MOVK (AArch64) or
MOVW/MOVT (ARM) pair, reconstruct the immediate, mask it with `0xFFFFF000`;
default to `0x1000A000` when no pattern was found. -/
def find_sej_base (data : List Nat) : Nat :=
  let sej_base : Nat := 0x1000A000
  let is64 := is_arm64 data
  let offset :=
    if is64 then
      let off := find_pattern data SEJ_BASE_PATTERN_ARM64 0
      if off = HEX_NOT_FOUND then find_pattern data SEJ_BASE_PATTERN_ARM64_ALT 0 else off
    else find_pattern data SEJ_BASE_PATTERN_ARM 0
  if offset ≠ HEX_NOT_FOUND then
    if is64 then
      let mov := read_le32 data offset
      let movk := read_le32 data (offset + 8)
      let low := (mov >>> 5) &&& 0xFFFF
      let high := (movk >>> 5) &&& 0xFFFF
      ((high <<< 16) ||| low) &&& 0xFFFFF000
    else
      let movw := read_le32 data offset
      let movt := read_le32 data (offset + 8)
      let low := (((movw >>> 16) &&& 0xF) <<< 12) ||| (movw &&& 0xFFF)
      let high := (((movt >>> 16) &&& 0xF) <<< 12) ||| (movt &&& 0xFFF)
      ((high <<< 16) ||| low) &&& 0xFFFFF000
  else sej_base

/-- The lock-state stub bytes written by `patch_lock_state` (AArch64 and ARM
encodings, verbatim from the source). -/
def lks_patch (is64 : Bool) : List Nat :=
  if is64 then
    [0x1F, 0x00, 0x00, 0xB9,
     0x00, 0x00, 0x80, 0xD2,
     0xC0, 0x03, 0x5F, 0xD6]
  else
    [0x00, 0x20, 0xA0, 0xE3,
     0x04, 0x00, 0x80, 0xE8,
     0x00, 0x00, 0xA0, 0xE3,
     0x1E, 0xFF, 0x2F, 0xE1]

def SEC_GET_SECCFG_STR : String := "[%s] sec_get_seccfg"

/-- `patch_lock_state` from `patch.rs`.  The ARM/AArch64 analyser module is
not part of the verified sources, so the lookup
`analyzer.find_function_from_string` is abstracted as the function `fns`.
Returns the success flag and the (possibly) rewritten region data. -/
def patch_lock_state (data : List Nat) (fns : String → Option Nat) (is64 : Bool) :
    Except String (Bool × List Nat) :=
  match fns SEC_GET_SECCFG_STR with
  | none => .ok (false, data)
  | some off =>
    match patch data off (bytes_to_hex (lks_patch is64)) with
    | (.ok _, d) => .ok (true, d)
    | (.error e, _) => .error e

/-- `get_v6_payload` from `patch.rs`.  The Rust function panics on a short
blob, a bad magic, a length field below 8 (`usize` underflow) or an
out-of-range slice; every panic is modelled as `none`. -/
def get_v6_payload (data : List Nat) (is64 : Bool) : Option (List Nat) :=
  if data.length < 16 + 4 * 4 then none
  else if data.take 11 ≠ V6_PAYLOAD_MAGIC then none
  else
    let arm7_offset := read_le32 data 16 + 8
    let arm7_length := read_le32 data 20 - 8
    let arm64_offset := read_le32 data 24 + 8
    let arm64_length := read_le32 data 28 - 8
    if is64 then
      if 8 ≤ read_le32 data 28 ∧ arm64_offset + arm64_length ≤ data.length then
        some ((data.drop arm64_offset).take arm64_length)
      else none
    else
      if 8 ≤ read_le32 data 20 ∧ arm7_offset + arm7_length ≤ data.length then
        some ((data.drop arm7_offset).take arm7_length)
      else none

/-! ## Embedding of `src/core/src/da/{xml,xflash}/sec.rs`

`SecCfgV4` lives in `core/seccfg` which is not among the verified sources;
only the fields the algorithm-detection loop touches are modelled.  The
`sej` device command (an extension round-trip) is abstracted as an oracle
`Sej` taking the four flags `(encrypt, legacy, anti_clone, xor)` and the
data, returning `none` on a device error. -/

inductive SecCfgV4Algo
  | SW
  | HW
  | HWv3
  | HWv4
deriving DecidableEq

/-- The fields of `SecCfgV4` used by `parse_seccfg` / `write_seccfg`:
the stored plaintext hash, the stored encrypted hash, and the memoised
algorithm (absent until detection succeeds). -/
structure SecCfgV4 where
  hash : List Nat
  encrypted_hash : List Nat
  algo : Option SecCfgV4Algo
deriving DecidableEq

/-- The `sej` oracle: flags `(encrypt, legacy, anti_clone, xor)` then data. -/
abbrev Sej := Bool → Bool → Bool → Bool → List Nat → Option (List Nat)

/-- The algorithm order tried by `parse_seccfg` (both the XML and the XFlash
implementation iterate this literal array). -/
def SECCFG_ALGOS : List SecCfgV4Algo := [.SW, .HW, .HWv3, .HWv4]

/-- The `sej` invocation for one algorithm, with the literal flag arguments
of the call sites in `sec.rs`. -/
def seccfg_try (sej : Sej) (encrypt : Bool) (a : SecCfgV4Algo) (d : List Nat) :
    Option (List Nat) :=
  match a with
  | .SW => sej encrypt false false false d
  | .HW => sej encrypt false true true d
  | .HWv3 => sej encrypt true true false d
  | .HWv4 => sej encrypt false true false d

/-- The detection loop of `parse_seccfg`: try each algorithm in order,
decrypt the stored encrypted hash, memoise the first algorithm whose
decryption equals the stored plaintext hash.  A `sej` device error aborts
the whole parse (the `.ok()?`). -/
def parse_seccfg_algos (sej : Sej) (cfg : SecCfgV4) :
    List SecCfgV4Algo → Option SecCfgV4
  | [] => none
  | a :: rest =>
    match seccfg_try sej false a cfg.encrypted_hash with
    | none => none
    | some dec =>
      if dec = cfg.hash then some { cfg with algo := some a }
      else parse_seccfg_algos sej cfg rest

/-- `parse_seccfg` (the algorithm-detection part, shared verbatim by
`xml/sec.rs` and `xflash/sec.rs`). -/
def parse_seccfg (sej : Sej) (cfg : SecCfgV4) : Option SecCfgV4 :=
  parse_seccfg_algos sej cfg SECCFG_ALGOS

/-- `write_seccfg` from `sec.rs`.  `create` abstracts
`SecCfgV4::create` (re-serialisation, outside the verified sources) and
`downloadOk` abstracts the success of the device download.  The second
component records every byte blob written to the device. -/
def write_seccfg (sej : Sej) (create : SecCfgV4 → List Nat)
    (downloadOk : List Nat → Bool) (cfg : SecCfgV4) :
    Option (List Nat) × List (List Nat) :=
  match cfg.algo with
  | none => (none, [])
  | some a =>
    match seccfg_try sej true a cfg.hash with
    | none => (none, [])
    | some enc =>
      let d := create { cfg with encrypted_hash := enc }
      if downloadOk d then (some d, [d]) else (none, [d])

/-- Spec-side flag tuples `(legacy, anti_clone, xor)` from the claim, to be
compared with the call sites embedded in `seccfg_try`. -/
def sejFlagsSpec : SecCfgV4Algo → Bool × Bool × Bool
  | .SW => (false, false, false)
  | .HW => (false, true, true)
  | .HWv3 => (true, true, false)
  | .HWv4 => (false, true, false)

/-- Position of an algorithm in the claimed fixed order SW, HW, HWv3, HWv4. -/
def algoIdx : SecCfgV4Algo → Nat
  | .SW => 0
  | .HW => 1
  | .HWv3 => 2
  | .HWv4 => 3

/-! ## Embedding of the error mapping in `src/core/src/error.rs` -/

/-- The 190 explicit `XFlashErrorKind` discriminants from `error.rs`, in
source order (`Unknown = 0xFFFFFFFF` is kept separate as the fallback). -/
def XFLASH_KNOWN_CODES : List Nat :=
  [0xC0010001, 0xC0010002, 0xC0010003, 0xC0010004, 0xC0010005, 0xC0010006,
   0xC0010007, 0xC0010008, 0xC0010009, 0xC001000A, 0xC001000B, 0xC001000C,
   0xC001000D, 0xC001000E, 0xC001000F, 0xC0010010, 0xC0010011, 0xC0020001,
   0xC0020002, 0xC0020003, 0xC0020004, 0xC0020005, 0xC0020006, 0xC0020007,
   0xC0020008, 0xC0020009, 0xC002000A, 0xC002000B, 0xC002000C, 0xC002000D,
   0xC002000E, 0xC002000F, 0xC0020010, 0xC0020011, 0xC0020012, 0xC0020013,
   0xC0020014, 0xC0020015, 0xC0020016, 0xC0020017, 0xC0020018, 0xC0020019,
   0xC002001A, 0xC002001B, 0xC002001C, 0xC002001D, 0xC002001E, 0xC002001F,
   0xC0020020, 0xC0020021, 0xC0020022, 0xC0020023, 0xC0020024, 0xC0020025,
   0xC0020026, 0xC0020027, 0xC0020028, 0xC0020029, 0xC002002A, 0xC002002B,
   0xC002002C, 0xC002002D, 0xC002002E, 0xC002002F, 0xC0020030, 0xC0020031,
   0xC0020032, 0xC0020033, 0xC0020034, 0xC0020035, 0xC0020036, 0xC0020037,
   0xC0020038, 0xC0020039, 0xC0020040, 0xC0020041, 0xC0020042, 0xC0020043,
   0xC0020044, 0xC0020045, 0xC0020046, 0xC0020047, 0xC0020048, 0xC0020049,
   0xC002004A, 0xC002004B, 0xC002004C, 0xC002004D, 0xC002004E, 0xC002004F,
   0xC0020050, 0xC0020051, 0xC0020052, 0xC0020053, 0xC0020054, 0xC0020055,
   0xC0020056, 0xC0020057, 0xC0020058, 0xC0020059, 0xC002005A, 0xC002005B,
   0xC002005C, 0xC002005D, 0xC002005E, 0xC0030001, 0xC0030002, 0xC0030003,
   0xC0030004, 0xC0030005, 0xC0030006, 0xC0030007, 0xC0030008, 0xC0030009,
   0xC003000A, 0xC003000B, 0xC003000C, 0xC003000D, 0xC003000E, 0xC003000F,
   0xC0030010, 0xC0030011, 0xC0030012, 0xC0030013, 0xC0030014, 0xC0030015,
   0xC0030016, 0xC0030017, 0xC0030018, 0xC0040001, 0xC0040002, 0xC0040003,
   0xC0040004, 0xC0040005, 0xC0040006, 0xC0040007, 0xC0040008, 0xC0040009,
   0xC004000A, 0xC004000B, 0xC004000C, 0xC0040030, 0xC0040040, 0xC0040041,
   0xC0040042, 0xC0040043, 0xC0040044, 0xC0040045, 0xC0040050, 0xC0040060,
   0xC0040100, 0xC0040102, 0xC0040200, 0xC0040201, 0xC0040202, 0xC0040203,
   0xC0040204, 0xC0040205, 0xC0040206, 0xC0040207, 0xC0040208, 0xC0040209,
   0xC004020A, 0xC004020B, 0xC004020C, 0xC004020D, 0xC0050001, 0xC0050002,
   0xC0050003, 0xC0050004, 0xC0050005, 0xC0050006, 0xC0050007, 0xC0050008,
   0xC0050009, 0xC005000A, 0xC005000B, 0xC005000C, 0xC005000D, 0xC0060001,
   0xC0060002, 0xC0060003, 0xC0060004, 0xC0060005, 0xC0060006, 0xC0070001,
   0xC0070002, 0xC0070003, 0xC0070004, 0xC0070005]

/-- The discriminant of `XFlashErrorKind::Unknown`. -/
def XFLASH_UNKNOWN : Nat := 0xFFFFFFFF

/-- `XFlashError`; the kind is represented by its `u32` discriminant. -/
structure XFlashError where
  kind : Nat
  code : Nat
deriving DecidableEq

/-- `XFlashError::from_code`: `TryFromPrimitive` succeeds exactly on the
declared discriminants (including `Unknown` itself), anything else falls
back to `Unknown`; the raw code is stored unchanged. -/
def XFlashError.from_code (c : Nat) : XFlashError :=
  if c ∈ XFLASH_KNOWN_CODES ∨ c = XFLASH_UNKNOWN then ⟨c, c⟩ else ⟨XFLASH_UNKNOWN, c⟩

inductive XmlErrorKind
  | Unknown
  | UnsupportedCmd
  | Cancel
deriving DecidableEq

/-- `XmlError` (message as a character list). -/
structure XmlError where
  message : List Char
  kind : XmlErrorKind
deriving DecidableEq

/-- `msg.trim_end_matches('\0')`. -/
def strip_nuls (s : List Char) : List Char :=
  (s.reverse.dropWhile (fun c => c = Char.ofNat 0)).reverse

/-- `XmlError::from_message` from `error.rs`.  (The `str::from_utf8`
step is outside the model: the response is taken as text.) -/
def XmlError.from_message (resp : List Char) : XmlError :=
  let msg := strip_nuls resp
  if msg = String.toList "ERR!UNSUPPORTED" then
    ⟨String.toList "Unsupported command", .UnsupportedCmd⟩
  else if msg = String.toList "ERR!CANCEL" then
    ⟨String.toList "Cancelled", .Cancel⟩
  else ⟨msg, .UnsupportedCmd⟩

/-! ## Embedding of `src/core/src/connection/port.rs` -/

inductive ConnectionType
  | Brom
  | Preloader
  | Da
deriving DecidableEq

/-- `KNOWN_PORTS`, verbatim in source order. -/
def KNOWN_PORTS : List (Nat × Nat × ConnectionType) :=
  [(0x0E8D, 0x0003, .Brom),
   (0x0E8D, 0x6000, .Preloader),
   (0x0E8D, 0x2000, .Preloader),
   (0x0E8D, 0x2001, .Da),
   (0x0E8D, 0x20FF, .Preloader),
   (0x0E8D, 0x3000, .Preloader),
   (0x1004, 0x6000, .Preloader),
   (0x22D9, 0x0006, .Preloader),
   (0x0FCE, 0xF200, .Brom),
   (0x0FCE, 0xD1E9, .Brom),
   (0x0FCE, 0xD1E2, .Brom),
   (0x0FCE, 0xD1EC, .Brom),
   (0x0FCE, 0xD1DD, .Brom)]

/-- Modelled from the spec: the USB backends (`UsbMTKPort::find_device` /
`SerialMTKPort::find_device`) are not among the verified sources; per the
spec, a device descriptor is matched against the known-ports table. -/
def lookup_port (vid pid : Nat) : Option ConnectionType :=
  match KNOWN_PORTS.find? (fun e => e.1 == vid && e.2.1 == pid) with
  | some e => some e.2.2
  | none => none

/-- Modelled from the spec: discovery enumerates all attached USB devices
and returns the first that matches the known-ports table, along with its
implied connection type. -/
def find_device : List (Nat × Nat) → Option ((Nat × Nat) × ConnectionType)
  | [] => none
  | d :: rest =>
    match lookup_port d.1 d.2 with
    | some ct => some (d, ct)
    | none => find_device rest

/-! ## Embedding of `src/core/src/core/auth/{sla,local_keyring}.rs`

A signer is modelled keyring-style: the big-endian modulus bytes of each of
its RSA keys (`k.n().to_bytes_be()`).  The signing primitive
`rsa_oaep_encrypt` lives in `utilities/rsa` outside the verified sources and
is abstracted as an oracle taking the challenge and the matched key. -/

inductive SignPurpose
  | BromSla
  | DaSla
deriving DecidableEq

structure SignData where
  rnd : List Nat
  soc_id : List Nat
  hrid : List Nat
  raw : List Nat
deriving DecidableEq

structure SignRequest where
  data : SignData
  purpose : SignPurpose
  pubk_mod : List Nat
deriving DecidableEq

/-- A registered signer: the modulus byte strings of its keys, in order. -/
abbrev Keyring := List (List Nat)

/-- `LocalKeyring::can_sign`. -/
def keyring_can_sign (kr : Keyring) (req : SignRequest) : Bool :=
  kr.any fun k => contains_bytes req.pubk_mod k != HEX_NOT_FOUND

/-- `LocalKeyring::sign`: the first key whose modulus occurs in
`req.pubk_mod` encrypts the challenge (`rsaEnc` abstracts
`rsa_oaep_encrypt(rnd, n, d)`). -/
def keyring_sign (rsaEnc : List Nat → List Nat → List Nat) (kr : Keyring)
    (req : SignRequest) : Except String (List Nat) :=
  match kr.find? (fun k => contains_bytes req.pubk_mod k != HEX_NOT_FOUND) with
  | none => .error "No matching key found"
  | some k => .ok (rsaEnc req.data.rnd k)

/-- `AuthManager::can_sign`: whether any registered signer can sign. -/
def auth_can_sign (signers : List Keyring) (req : SignRequest) : Bool :=
  signers.any fun s => keyring_can_sign s req

/-- `AuthManager::sign`: dispatch to the first capable signer, else the
`Could not find any signer` Penumbra error. -/
def auth_sign (rsaEnc : List Nat → List Nat → List Nat) (signers : List Keyring)
    (req : SignRequest) : Except String (List Nat) :=
  match signers.find? (fun s => keyring_can_sign s req) with
  | none => .error "Could not find any signer"
  | some s => keyring_sign rsaEnc s req

/-! ## Supporting lemmas: windows and pattern matching -/

theorem window_at_length (data : List Nat) (i n : Nat) (h : i + n ≤ data.length) :
    (window_at data i n).length = n := by
  simp only [window_at, List.length_take, List.length_drop]
  omega

theorem window_at_getD (data : List Nat) (i n k : Nat) (hk : k < n) :
    (window_at data i n).getD k 0 = data.getD (i + k) 0 := by
  simp [window_at, List.getD_eq_getElem?_getD, List.getElem?_take, hk, List.getElem?_drop]

theorem getD_default_of_le (l : HexPattern) (k : Nat) (h : l.length ≤ k) :
    l.getD k none = none := by
  simp [List.getD_eq_getElem?_getD, List.getElem?_eq_none h]

theorem pattern_matches_cons (x : Option Nat) (ps : HexPattern) (a : Nat) (as : List Nat) :
    pattern_matches (a :: as) (x :: ps) =
      ((match x with | none => true | some v => v == a) && pattern_matches as ps) := rfl

theorem pattern_matches_true_iff (p : HexPattern) :
    ∀ w : List Nat, p.length ≤ w.length →
      (pattern_matches w p = true ↔ ∀ k b, p.getD k none = some b → w.getD k 0 = b) := by
  induction p with
  | nil =>
    intro w _
    constructor
    · intro _ k b hk
      simp [List.getD] at hk
    · intro _
      rfl
  | cons x ps ih =>
    intro w h
    match w with
    | [] => simp at h
    | a :: as =>
      have h' : ps.length ≤ as.length := by simpa using h
      rw [pattern_matches_cons, Bool.and_eq_true, ih as h']
      constructor
      · rintro ⟨hx, hrest⟩ k b hk
        match k with
        | 0 =>
          rw [List.getD_cons_zero] at hk
          subst hk
          rw [List.getD_cons_zero]
          have hba : b = a := by simpa using hx
          exact hba.symm
        | k + 1 =>
          rw [List.getD_cons_succ] at hk
          rw [List.getD_cons_succ]
          exact hrest k b hk
      · intro hall
        constructor
        · match x with
          | none => rfl
          | some v =>
            have hav := hall 0 v (by rw [List.getD_cons_zero])
            rw [List.getD_cons_zero] at hav
            subst hav
            simp
        · intro k b hk
          have := hall (k + 1) b (by rwa [List.getD_cons_succ])
          rwa [List.getD_cons_succ] at this

theorem matches_at_true_iff (data : List Nat) (p : HexPattern) (i : Nat) :
    matches_at data p i = true ↔
      i + p.length ≤ data.length ∧
        ∀ k b, p.getD k none = some b → data.getD (i + k) 0 = b := by
  unfold matches_at
  rw [Bool.and_eq_true, decide_eq_true_iff, List.all_eq_true]
  constructor
  · rintro ⟨hb, hall⟩
    refine ⟨hb, fun k b hk => ?_⟩
    by_cases hkl : k < p.length
    · have := hall k (List.mem_range.mpr hkl)
      rw [hk] at this
      simpa using this
    · rw [getD_default_of_le p k (by omega)] at hk
      cases hk
  · rintro ⟨hb, hall⟩
    refine ⟨hb, fun k _ => ?_⟩
    cases hpk : p.getD k none with
    | none => simp [hpk]
    | some b =>
      simp only [hpk]
      rw [hall k b hpk]
      simp

theorem window_match_iff (data : List Nat) (p : HexPattern) (i : Nat)
    (h : i + p.length ≤ data.length) :
    (pattern_matches (window_at data i p.length) p = true ↔ matches_at data p i = true) := by
  rw [matches_at_true_iff,
    pattern_matches_true_iff p _ (le_of_eq (window_at_length data i p.length h).symm)]
  constructor
  · intro hw
    refine ⟨h, fun k b hk => ?_⟩
    have hkp : k < p.length := by
      by_contra hge
      rw [getD_default_of_le p k (by omega)] at hk
      cases hk
    rw [← window_at_getD data i p.length k hkp]
    exact hw k b hk
  · rintro ⟨-, hm⟩ k b hk
    have hkp : k < p.length := by
      by_contra hge
      rw [getD_default_of_le p k (by omega)] at hk
      cases hk
    rw [window_at_getD data i p.length k hkp]
    exact hm k b hk

theorem find_pattern_core_spec (data : List Nat) (p : HexPattern) (offset : Nat)
    (hlen : data.length < HEX_NOT_FOUND) :
    (find_pattern_core data p offset = HEX_NOT_FOUND ↔
      ∀ i, offset ≤ i → i + p.length ≤ data.length →
        pattern_matches (window_at data i p.length) p = false) ∧
    (find_pattern_core data p offset ≠ HEX_NOT_FOUND →
      offset ≤ find_pattern_core data p offset ∧
        find_pattern_core data p offset + p.length ≤ data.length ∧
        pattern_matches (window_at data (find_pattern_core data p offset) p.length) p = true) := by
  unfold HEX_NOT_FOUND at hlen
  unfold find_pattern_core
  cases hf : (List.range' offset (data.length + 1 - p.length - offset)).find?
      (fun i => pattern_matches (window_at data i p.length) p) with
  | none =>
    have hnone := List.find?_eq_none.mp hf
    dsimp only
    constructor
    · constructor
      · intro _ i hi hib
        have hmem : i ∈ List.range' offset (data.length + 1 - p.length - offset) :=
          List.mem_range'_1.mpr ⟨hi, by omega⟩
        have := hnone i hmem
        simpa using this
      · intro _
        rfl
    · intro h
      cases h rfl
  | some j =>
    have hj0 := List.find?_some hf
    have hj : pattern_matches (window_at data j p.length) p = true := by simpa using hj0
    have hjm := List.mem_of_find?_eq_some hf
    have hjr := List.mem_range'_1.mp hjm
    have hjb : j + p.length ≤ data.length := by omega
    dsimp only
    constructor
    · constructor
      · intro h
        exfalso
        unfold HEX_NOT_FOUND at h
        omega
      · intro hall
        have := hall j hjr.1 hjb
        rw [hj] at this
        cases this
    · intro _
      exact ⟨hjr.1, hjb, hj⟩

/-! ## Supporting lemmas: the patch write loop -/

theorem write_bytes_length (p : HexPattern) :
    ∀ (data : List Nat) (o : Nat), (write_bytes data o p).length = data.length := by
  induction p with
  | nil => intro data o; rfl
  | cons x ps ih =>
    intro data o
    cases x with
    | none => exact ih data (o + 1)
    | some b => rw [write_bytes, ih, List.length_set]

theorem write_bytes_getD_outside (p : HexPattern) :
    ∀ (data : List Nat) (o j : Nat), j < o ∨ o + p.length ≤ j →
      (write_bytes data o p).getD j 0 = data.getD j 0 := by
  induction p with
  | nil => intro data o j _; rfl
  | cons x ps ih =>
    intro data o j hj
    rw [List.length_cons] at hj
    cases x with
    | none =>
      rw [write_bytes]
      exact ih data (o + 1) j (by omega)
    | some b =>
      rw [write_bytes, ih (data.set o b) (o + 1) j (by omega)]
      have hne : o ≠ j := by omega
      simp [List.getD_eq_getElem?_getD, List.getElem?_set_ne hne]

theorem write_bytes_getD_some (p : HexPattern) :
    ∀ (data : List Nat) (o k b : Nat), p.getD k none = some b → k < p.length →
      o + p.length ≤ data.length → (write_bytes data o p).getD (o + k) 0 = b := by
  induction p with
  | nil => intro data o k b _ hk; simp at hk
  | cons x ps ih =>
    intro data o k b hk hkl hb
    rw [List.length_cons] at hkl hb
    cases k with
    | zero =>
      rw [List.getD_cons_zero] at hk
      subst hk
      rw [write_bytes]
      rw [write_bytes_getD_outside ps (data.set o b) (o + 1) (o + 0) (by omega)]
      have ho : o < data.length := by omega
      simp [List.getD_eq_getElem?_getD, List.getElem?_set_self, ho]
    | succ k =>
      rw [List.getD_cons_succ] at hk
      cases x with
      | none =>
        rw [write_bytes]
        have := ih data (o + 1) k b hk (by omega) (by omega)
        rwa [show o + 1 + k = o + (k + 1) by omega] at this
      | some b2 =>
        rw [write_bytes]
        have := ih (data.set o b2) (o + 1) k b hk (by omega)
          (by rw [List.length_set]; omega)
        rwa [show o + 1 + k = o + (k + 1) by omega] at this

theorem write_bytes_getD_wildcard (p : HexPattern) :
    ∀ (data : List Nat) (o k : Nat), p.getD k none = none → k < p.length →
      (write_bytes data o p).getD (o + k) 0 = data.getD (o + k) 0 := by
  induction p with
  | nil => intro data o k _ hk; simp at hk
  | cons x ps ih =>
    intro data o k hk hkl
    rw [List.length_cons] at hkl
    cases k with
    | zero =>
      rw [List.getD_cons_zero] at hk
      subst hk
      rw [write_bytes]
      rw [write_bytes_getD_outside ps data (o + 1) (o + 0) (by omega)]
    | succ k =>
      rw [List.getD_cons_succ] at hk
      cases x with
      | none =>
        rw [write_bytes]
        have := ih data (o + 1) k hk (by omega)
        rwa [show o + 1 + k = o + (k + 1) by omega] at this
      | some b2 =>
        rw [write_bytes]
        have := ih (data.set o b2) (o + 1) k hk (by omega)
        rw [show o + 1 + k = o + (k + 1) by omega] at this
        rw [this]
        have hne : o ≠ o + (k + 1) := by omega
        simp [List.getD_eq_getElem?_getD, List.getElem?_set_ne hne]

theorem patch_ok_eq (data : List Nat) (offset : Nat) (s : List Char) (p : HexPattern)
    (hp : parse_pattern s = some p) (hb : offset + p.length ≤ data.length) :
    patch data offset s = (.ok (), write_bytes data offset p) := by
  unfold patch
  rw [hp]
  dsimp only
  rw [if_neg (by omega)]

/-! ## Claim C1 — `find_pattern` -/

/-- **C1** (amended): for every byte string, every valid nonempty pattern and
every offset, `find_pattern` returns `HEX_NOT_FOUND` exactly when no index
`i ≥ offset` matches the pattern, and otherwise returns such an index.  The
amendment excludes the empty pattern, for which the source returns
`HEX_NOT_FOUND` unconditionally (see the counterexample). -/
theorem find_pattern_correct (data : List Nat) (s : List Char) (p : HexPattern)
    (hp : parse_pattern s = some p) (hne : p ≠ [])
    (hlen : data.length < HEX_NOT_FOUND) (offset : Nat) :
    (find_pattern data s offset = HEX_NOT_FOUND ↔
      ∀ i, offset ≤ i → matches_at data p i = false) ∧
    (find_pattern data s offset ≠ HEX_NOT_FOUND →
      offset ≤ find_pattern data s offset ∧
        matches_at data p (find_pattern data s offset) = true) := by
  have hplen : 0 < p.length := by
    cases p with
    | nil => cases hne rfl
    | cons a l => simp
  have hpe : p.isEmpty = false := by
    cases p with
    | nil => cases hne rfl
    | cons a l => rfl
  unfold find_pattern
  rw [hp]
  dsimp only
  by_cases hoff : offset > data.length - p.length
  · rw [if_pos (Or.inr hoff)]
    have hnom : ∀ i, offset ≤ i → matches_at data p i = false := by
      intro i hi
      have hib : ¬ i + p.length ≤ data.length := by omega
      simp [matches_at, hib]
    exact ⟨⟨fun _ => hnom, fun _ => rfl⟩, fun h => absurd rfl h⟩
  · have hcond : ¬(p.isEmpty = true ∨ offset > data.length - p.length) := by
      rintro (h | h)
      · rw [hpe] at h
        exact Bool.false_ne_true h
      · exact hoff h
    rw [if_neg hcond]
    obtain ⟨h1, h2⟩ := find_pattern_core_spec data p offset hlen
    constructor
    · rw [h1]
      constructor
      · intro hall i hi
        by_cases hib : i + p.length ≤ data.length
        · have hw := hall i hi hib
          rw [← Bool.not_eq_true, ← window_match_iff data p i hib]
          simp [hw]
        · simp [matches_at, hib]
      · intro hall i hi hib
        have hm := hall i hi
        cases hwm : pattern_matches (window_at data i p.length) p with
        | false => rfl
        | true =>
          rw [(window_match_iff data p i hib).mp hwm] at hm
          cases hm
    · intro hne2
      obtain ⟨ha, hb, hc⟩ := h2 hne2
      exact ⟨ha, (window_match_iff data p _ hb).mp hc⟩

/-- **C1 counterexample**: the empty pattern parses successfully, matches
`[0]` at index `0 ≥ 0` (vacuously), yet `find_pattern` returns
`HEX_NOT_FOUND` — so `HEX_NOT_FOUND` is not returned exactly when no
matching index exists. -/
theorem find_pattern_empty_pattern_cex :
    parse_pattern (String.toList "") = some [] ∧
    matches_at [0] [] 0 = true ∧
    find_pattern [0] (String.toList "") 0 = HEX_NOT_FOUND := by decide

/-- Witness for `find_pattern_correct` at a concrete input. -/
theorem find_pattern_correct_witness :
    0 ≤ find_pattern [0xAB, 0xCD] (String.toList "XXCD") 0 ∧
      matches_at [0xAB, 0xCD] [none, some 0xCD]
        (find_pattern [0xAB, 0xCD] (String.toList "XXCD") 0) = true :=
  (find_pattern_correct [0xAB, 0xCD] (String.toList "XXCD") [none, some 0xCD]
    (by decide) (by decide) (by decide) 0).2 (by decide)

/-! ## Claim C2 — `patch` -/

theorem write_bytes_usize_eq (p : HexPattern) :
    ∀ (data : List Nat) (o : Nat), o + p.length ≤ data.length →
      data.length < USIZE_SIZE →
      write_bytes_usize data o p = some (write_bytes data o p) := by
  induction p with
  | nil => intro data o _ _; rfl
  | cons x ps ih =>
    intro data o hb hd
    rw [List.length_cons] at hb
    cases x with
    | none =>
      rw [write_bytes_usize, write_bytes]
      exact ih data (o + 1) (by omega) hd
    | some b =>
      rw [write_bytes_usize, write_bytes]
      have homod : o % USIZE_SIZE = o := Nat.mod_eq_of_lt (by omega)
      rw [homod, if_pos (by omega)]
      exact ih (data.set o b) (o + 1) (by rw [List.length_set]; omega)
        (by rw [List.length_set]; exact hd)

/-- **C2** (amended): for every buffer (of `usize`-bounded length), offset
and valid patch pattern: when `offset + len ≤ |B|` the patch succeeds,
every non-wildcard byte of the pattern is written at `offset + k`, and every
wildcard position and every byte outside `[offset, offset + len)` keeps its
previous value, the length being preserved; when `|B| < offset + len` *and
the `usize` sum `offset + len` does not overflow*, it returns the bounds
error and leaves the buffer unchanged.  The amendment adds the no-overflow
proviso: once the sum wraps, the release-build check is fooled and no error
is returned (see the counterexample). -/
theorem patch_correct (data : List Nat) (offset : Nat) (s : List Char) (p : HexPattern)
    (hp : parse_pattern s = some p) (hdlen : data.length < USIZE_SIZE) :
    (offset + p.length ≤ data.length →
      ∃ out, patch_usize data offset s = some (.ok (), out) ∧
        out.length = data.length ∧
        (∀ k b, p.getD k none = some b → k < p.length → out.getD (offset + k) 0 = b) ∧
        (∀ k, p.getD k none = none → k < p.length →
          out.getD (offset + k) 0 = data.getD (offset + k) 0) ∧
        (∀ j, j < offset ∨ offset + p.length ≤ j → out.getD j 0 = data.getD j 0)) ∧
    (data.length < offset + p.length → offset + p.length < USIZE_SIZE →
      patch_usize data offset s = some (.error "Patch exceeds data bounds", data)) := by
  constructor
  · intro hb
    refine ⟨write_bytes data offset p, ?_,
      write_bytes_length p data offset, ?_, ?_, ?_⟩
    · unfold patch_usize
      rw [hp]
      dsimp only
      have hmle := Nat.mod_le (offset + p.length) USIZE_SIZE
      rw [if_neg (by omega), write_bytes_usize_eq p data offset hb hdlen]
      rfl
    · intro k b hk hkl
      exact write_bytes_getD_some p data offset k b hk hkl hb
    · intro k hk hkl
      exact write_bytes_getD_wildcard p data offset k hk hkl
    · intro j hj
      exact write_bytes_getD_outside p data offset j hj
  · intro hb hnw
    unfold patch_usize
    rw [hp]
    dsimp only
    rw [if_pos (by rw [Nat.mod_eq_of_lt hnw]; omega)]

/-- **C2 counterexample**: at `offset = usize::MAX` with the one-byte
wildcard pattern `"XX"` and an empty buffer, `offset + |P| > |B|`, yet the
release-build bounds check wraps (`usize::MAX + 1 ≡ 0`), the wildcard write
loop touches nothing, and the function returns `Ok` — not the claimed
error.  (A debug build panics at the overflowing addition; it does not
return the error either.) -/
theorem patch_usize_overflow_cex :
    parse_pattern (String.toList "XX") = some [none] ∧
    ([] : List Nat).length < 18446744073709551615 + 1 ∧
    patch_usize [] 18446744073709551615 (String.toList "XX") =
      some (.ok (), []) :=
  ⟨by decide, by decide, rfl⟩

/-- Witness for `patch_correct` at a concrete input: patching `[1, 2, 3]`
at offset `0` with `"41XX"`. -/
theorem patch_correct_witness :
    ∃ out, patch_usize [1, 2, 3] 0 (String.toList "41XX") = some (.ok (), out) ∧
      out.length = [1, 2, 3].length ∧
      (∀ k b, ([some 0x41, none] : HexPattern).getD k none = some b →
        k < ([some 0x41, none] : HexPattern).length → out.getD (0 + k) 0 = b) ∧
      (∀ k, ([some 0x41, none] : HexPattern).getD k none = none →
        k < ([some 0x41, none] : HexPattern).length →
        out.getD (0 + k) 0 = [1, 2, 3].getD (0 + k) 0) ∧
      (∀ j, j < 0 ∨ 0 + ([some 0x41, none] : HexPattern).length ≤ j →
        out.getD j 0 = [1, 2, 3].getD j 0) :=
  (patch_correct [1, 2, 3] 0 (String.toList "41XX") [some 0x41, none]
    (by decide) (by decide)).1 (by decide)

/-! ## Supporting lemmas: `bytes_to_hex` round-trips through `parse_pattern` -/

theorem hexDigitVal_toHexChar : ∀ d < 16, hexDigitVal (toHexChar d) = some d := by decide

theorem toHexChar_not_sep : ∀ d < 16, isPatternSep (toHexChar d) = false := by decide

theorem toHexChar_ne_wildcard :
    ∀ d < 16, ¬(toHexChar d = 'X' ∨ toHexChar d = 'x') := by decide

theorem parsePair_hex (b : Nat) (hb : b < 256) :
    parsePair (toHexChar (b / 16)) (toHexChar (b % 16)) = some (some b) := by
  have h1 : b / 16 < 16 := by omega
  have h2 : b % 16 < 16 := Nat.mod_lt _ (by norm_num)
  unfold parsePair
  rw [if_neg (fun h => toHexChar_ne_wildcard (b / 16) h1 h.1)]
  rw [hexDigitVal_toHexChar (b / 16) h1, hexDigitVal_toHexChar (b % 16) h2]
  dsimp only
  have : 16 * (b / 16) + b % 16 = b := by omega
  rw [this]

theorem bytes_to_hex_filter (bs : List Nat) (hb : ∀ b ∈ bs, b < 256) :
    (bytes_to_hex bs).filter (fun c => !isPatternSep c) = bytes_to_hex bs := by
  induction bs with
  | nil => rfl
  | cons b rest ih =>
    have hb0 : b < 256 := hb b (List.mem_cons_self b _)
    have h1 : b / 16 < 16 := by omega
    have h2 : b % 16 < 16 := Nat.mod_lt _ (by norm_num)
    rw [bytes_to_hex, List.filter_cons, List.filter_cons]
    rw [toHexChar_not_sep (b / 16) h1, toHexChar_not_sep (b % 16) h2]
    rw [ih (fun x hx => hb x (List.mem_cons_of_mem b hx))]
    rfl

theorem parsePairs_bytes_to_hex (bs : List Nat) (hb : ∀ b ∈ bs, b < 256) :
    parsePairs (bytes_to_hex bs) = some (bs.map some) := by
  induction bs with
  | nil => rfl
  | cons b rest ih =>
    have hb0 : b < 256 := hb b (List.mem_cons_self b _)
    rw [bytes_to_hex, parsePairs]
    rw [parsePair_hex b hb0, ih (fun x hx => hb x (List.mem_cons_of_mem b hx))]
    rfl

theorem parse_pattern_bytes_to_hex (bs : List Nat) (hb : ∀ b ∈ bs, b < 256) :
    parse_pattern (bytes_to_hex bs) = some (bs.map some) := by
  unfold parse_pattern
  rw [bytes_to_hex_filter bs hb, parsePairs_bytes_to_hex bs hb]

theorem getD_map_some (l : List Nat) (k : Nat) (hk : k < l.length) :
    (l.map some).getD k none = some (l.getD k 0) := by
  simp [List.getD_eq_getElem?_getD, List.getElem?_eq_getElem, hk]

/-! ## Claim C5 — `is_arm64` and `patch_lock_state` -/

theorem lks_patch_bytes_lt (is64 : Bool) : ∀ b ∈ lks_patch is64, b < 256 := by
  cases is64 <;> decide

/-- **C5** (amended): a DA2 region is treated as AArch64 iff its length
exceeds 4 **and** its first four bytes are `C6 01 00 58`; `patch_lock_state`
overwrites the start of the function containing `"[%s] sec_get_seccfg"` with
exactly the 12-byte AArch64 stub or the 16-byte ARM stub (leaving all other
bytes unchanged), and returns `false` without modifying the region when no
such function is found.  The amendment adds the length condition, which the
claim's pure first-four-bytes test misses (see the counterexample). -/
theorem patch_lock_state_correct :
    (∀ data : List Nat, is_arm64 data = true ↔
      4 < data.length ∧ data.take 4 = [0xC6, 0x01, 0x00, 0x58]) ∧
    lks_patch true = [0x1F, 0x00, 0x00, 0xB9, 0x00, 0x00, 0x80, 0xD2,
      0xC0, 0x03, 0x5F, 0xD6] ∧
    lks_patch false = [0x00, 0x20, 0xA0, 0xE3, 0x04, 0x00, 0x80, 0xE8,
      0x00, 0x00, 0xA0, 0xE3, 0x1E, 0xFF, 0x2F, 0xE1] ∧
    (∀ (data : List Nat) (fns : String → Option Nat) (is64 : Bool),
      fns SEC_GET_SECCFG_STR = none →
      patch_lock_state data fns is64 = .ok (false, data)) ∧
    (∀ (data : List Nat) (fns : String → Option Nat) (is64 : Bool) (off : Nat),
      fns SEC_GET_SECCFG_STR = some off →
      off + (lks_patch is64).length ≤ data.length →
      ∃ d, patch_lock_state data fns is64 = .ok (true, d) ∧
        d.length = data.length ∧
        (∀ k, k < (lks_patch is64).length → d.getD (off + k) 0 = (lks_patch is64).getD k 0) ∧
        (∀ j, j < off ∨ off + (lks_patch is64).length ≤ j →
          d.getD j 0 = data.getD j 0)) := by
  refine ⟨?_, rfl, rfl, ?_, ?_⟩
  · intro data
    simp [is_arm64]
  · intro data fns is64 h
    unfold patch_lock_state
    rw [h]
  · intro data fns is64 off h hb
    unfold patch_lock_state
    rw [h]
    dsimp only
    have hbytes := lks_patch_bytes_lt is64
    have hparse := parse_pattern_bytes_to_hex (lks_patch is64) hbytes
    have hlen2 : off + ((lks_patch is64).map some).length ≤ data.length := by
      rw [List.length_map]
      exact hb
    rw [patch_ok_eq data off (bytes_to_hex (lks_patch is64)) ((lks_patch is64).map some)
      hparse hlen2]
    refine ⟨write_bytes data off ((lks_patch is64).map some), rfl,
      write_bytes_length ((lks_patch is64).map some) data off, ?_, ?_⟩
    · intro k hk
      have hk2 : k < ((lks_patch is64).map some).length := by
        rw [List.length_map]
        exact hk
      exact write_bytes_getD_some ((lks_patch is64).map some) data off k
        ((lks_patch is64).getD k 0) (getD_map_some (lks_patch is64) k hk) hk2 hlen2
    · intro j hj
      refine write_bytes_getD_outside ((lks_patch is64).map some) data off j ?_
      rw [List.length_map]
      exact hj

/-- **C5 counterexample**: a region of exactly the four magic bytes has
first four bytes `C6 01 00 58` yet `is_arm64` reports `false` (the code also
requires the length to exceed 4). -/
theorem is_arm64_exact_four_cex :
    [0xC6, 0x01, 0x00, 0x58].take 4 = [0xC6, 0x01, 0x00, 0x58] ∧
    is_arm64 [0xC6, 0x01, 0x00, 0x58] = false := by decide

/-- Witness for `patch_lock_state_correct` at a concrete input. -/
theorem patch_lock_state_correct_witness :
    ∃ d, patch_lock_state (List.replicate 16 0)
        (fun s => if s = SEC_GET_SECCFG_STR then some 0 else none) false = .ok (true, d) ∧
      d.length = (List.replicate 16 0 : List Nat).length ∧
      (∀ k, k < (lks_patch false).length → d.getD (0 + k) 0 = (lks_patch false).getD k 0) ∧
      (∀ j, j < 0 ∨ 0 + (lks_patch false).length ≤ j →
        d.getD j 0 = (List.replicate 16 0 : List Nat).getD j 0) :=
  patch_lock_state_correct.2.2.2.2 (List.replicate 16 0)
    (fun s => if s = SEC_GET_SECCFG_STR then some 0 else none) false 0
    (by simp) (by decide)

/-! ## Claim C6 — `get_v6_payload` -/

/-- **C6** (amended): `get_v6_payload` never returns a payload for a blob
shorter than 32 bytes or whose first 11 bytes are not `PENUMBRAV6P`; for an
accepted blob whose selected length field is at least 8 and whose selected
slice `[off+8, off+8+(len−8))` lies inside the blob it returns exactly that
slice, the four `u32` fields being read little-endian from bytes 16..32.
The amendment adds the two in-range conditions: outside them the source
panics instead of returning the slice (see the counterexample). -/
theorem get_v6_payload_correct :
    (∀ (data : List Nat) (is64 : Bool),
      data.length < 32 ∨ data.take 11 ≠ V6_PAYLOAD_MAGIC →
      get_v6_payload data is64 = none) ∧
    (∀ data : List Nat, 32 ≤ data.length → data.take 11 = V6_PAYLOAD_MAGIC →
      (8 ≤ read_le32 data 28 →
        read_le32 data 24 + 8 + (read_le32 data 28 - 8) ≤ data.length →
        get_v6_payload data true =
          some (window_at data (read_le32 data 24 + 8) (read_le32 data 28 - 8))) ∧
      (8 ≤ read_le32 data 20 →
        read_le32 data 16 + 8 + (read_le32 data 20 - 8) ≤ data.length →
        get_v6_payload data false =
          some (window_at data (read_le32 data 16 + 8) (read_le32 data 20 - 8)))) := by
  constructor
  · rintro data is64 (h | h)
    · simp only [get_v6_payload]
      rw [if_pos (by omega)]
    · simp only [get_v6_payload]
      by_cases h32 : data.length < 16 + 4 * 4
      · rw [if_pos h32]
      · rw [if_neg h32, if_pos h]
  · intro data h32 hmagic
    constructor
    · intro hl hr
      simp only [get_v6_payload]
      rw [if_neg (by omega), if_neg (not_not_intro hmagic), if_pos trivial, if_pos ⟨hl, hr⟩]
      rfl
    · intro hl hr
      simp only [get_v6_payload]
      rw [if_neg (by omega), if_neg (not_not_intro hmagic),
        if_neg (by simp), if_pos ⟨hl, hr⟩]
      rfl

/-- **C6 counterexample**: a 32-byte blob with the correct magic and all
four header fields zero is accepted by the claimed checks, yet the function
panics on it (`arm7_len − 8` underflows) instead of returning a slice. -/
theorem get_v6_payload_panic_cex :
    ([0x50, 0x45, 0x4E, 0x55, 0x4D, 0x42, 0x52, 0x41, 0x56, 0x36, 0x50,
        0, 0, 0, 0, 0, 0, 0, 0, 0, 0, 0, 0, 0, 0, 0, 0, 0, 0, 0, 0, 0] : List Nat).length
        = 32 ∧
    ([0x50, 0x45, 0x4E, 0x55, 0x4D, 0x42, 0x52, 0x41, 0x56, 0x36, 0x50,
        0, 0, 0, 0, 0, 0, 0, 0, 0, 0, 0, 0, 0, 0, 0, 0, 0, 0, 0, 0, 0] : List Nat).take 11
        = V6_PAYLOAD_MAGIC ∧
    get_v6_payload
      [0x50, 0x45, 0x4E, 0x55, 0x4D, 0x42, 0x52, 0x41, 0x56, 0x36, 0x50,
        0, 0, 0, 0, 0, 0, 0, 0, 0, 0, 0, 0, 0, 0, 0, 0, 0, 0, 0, 0, 0] false = none ∧
    get_v6_payload
      [0x50, 0x45, 0x4E, 0x55, 0x4D, 0x42, 0x52, 0x41, 0x56, 0x36, 0x50,
        0, 0, 0, 0, 0, 0, 0, 0, 0, 0, 0, 0, 0, 0, 0, 0, 0, 0, 0, 0, 0] true = none := by
  decide

/-- Witness for `get_v6_payload_correct`: a short blob is refused. -/
theorem get_v6_payload_correct_witness :
    get_v6_payload [1, 2, 3] false = none :=
  get_v6_payload_correct.1 [1, 2, 3] false (Or.inl (by decide))

/-! ## Claim C10 — `find_sej_base` -/

theorem and_mask_mod_4096 (x : Nat) : (x &&& 0xFFFFF000) % 4096 = 0 := by
  rw [← Nat.and_pow_two_sub_one_eq_mod (x &&& 0xFFFFF000) 12]
  show x &&& 4294963200 &&& 4095 = 0
  rw [Nat.land_assoc]
  have h : (4294963200 &&& 4095 : Nat) = 0 := by decide
  rw [h, Nat.and_zero]

/-- **C10**: `find_sej_base` always returns an address whose low 12 bits are
zero; when the architecture-relevant instruction pattern is found the
reconstructed immediate is masked with `0xFFFFF000`, and when none of the
three patterns occurs in the input it returns the default `0x1000A000`. -/
theorem find_sej_base_correct (data : List Nat) :
    find_sej_base data % 4096 = 0 ∧
    (find_pattern data SEJ_BASE_PATTERN_ARM64 0 = HEX_NOT_FOUND →
      find_pattern data SEJ_BASE_PATTERN_ARM64_ALT 0 = HEX_NOT_FOUND →
      find_pattern data SEJ_BASE_PATTERN_ARM 0 = HEX_NOT_FOUND →
      find_sej_base data = 0x1000A000) ∧
    (∀ off, is_arm64 data = true →
      find_pattern data SEJ_BASE_PATTERN_ARM64 0 = off → off ≠ HEX_NOT_FOUND →
      find_sej_base data =
        ((((read_le32 data (off + 8) >>> 5) &&& 0xFFFF) <<< 16) |||
          ((read_le32 data off >>> 5) &&& 0xFFFF)) &&& 0xFFFFF000) ∧
    (∀ off, is_arm64 data = false →
      find_pattern data SEJ_BASE_PATTERN_ARM 0 = off → off ≠ HEX_NOT_FOUND →
      find_sej_base data =
        (((((((read_le32 data (off + 8) >>> 16) &&& 0xF) <<< 12) |||
              (read_le32 data (off + 8) &&& 0xFFF)) <<< 16) |||
          ((((read_le32 data off >>> 16) &&& 0xF) <<< 12) |||
            (read_le32 data off &&& 0xFFF))) &&& 0xFFFFF000)) := by
  refine ⟨?_, ?_, ?_, ?_⟩
  · simp only [find_sej_base]
    split_ifs <;> first
      | exact and_mask_mod_4096 _
      | decide
  · intro h1 h2 h3
    cases h64 : is_arm64 data with
    | true => simp [find_sej_base, h64, h1, h2]
    | false => simp [find_sej_base, h64, h3]
  · intro off h64 hf hne
    simp [find_sej_base, h64, hf, hne]
  · intro off h64 hf hne
    simp [find_sej_base, h64, hf, hne]

/-- Witness for `find_sej_base_correct`: the empty input contains none of
the patterns, so the default base is returned (and it is 4096-aligned). -/
theorem find_sej_base_correct_witness :
    find_sej_base [] % 4096 = 0 ∧ find_sej_base [] = 0x1000A000 :=
  ⟨(find_sej_base_correct []).1,
    (find_sej_base_correct []).2.1 (by decide) (by decide) (by decide)⟩

/-! ## Claim C3 — seccfg algorithm detection and write refusal -/

/-- **C3**: `parse_seccfg` tries the SEJ algorithms in the fixed order
SW, HW, HWv3, HWv4 with `encrypt = false` and `(legacy, anti_clone, xor)`
flags `(f,f,f)`, `(f,t,t)`, `(t,t,f)`, `(f,t,f)` respectively; whenever it
succeeds, the memoised algorithm is the first whose decryption of the
stored encrypted hash equals the stored plaintext hash (every earlier
algorithm decrypted to something else); `write_seccfg` returns empty and
writes nothing to the device when no algorithm was memoised. -/
theorem seccfg_correct :
    (∀ (sej : Sej) (e : Bool) (a : SecCfgV4Algo) (d : List Nat),
      seccfg_try sej e a d =
        sej e (sejFlagsSpec a).1 (sejFlagsSpec a).2.1 (sejFlagsSpec a).2.2 d) ∧
    SECCFG_ALGOS = [.SW, .HW, .HWv3, .HWv4] ∧
    (∀ (sej : Sej) (cfg cfg' : SecCfgV4), parse_seccfg sej cfg = some cfg' →
      ∃ a, cfg' = { cfg with algo := some a } ∧
        seccfg_try sej false a cfg.encrypted_hash = some cfg.hash ∧
        ∀ b, algoIdx b < algoIdx a →
          ∃ d, seccfg_try sej false b cfg.encrypted_hash = some d ∧ d ≠ cfg.hash) ∧
    (∀ (sej : Sej) (create : SecCfgV4 → List Nat) (downloadOk : List Nat → Bool)
      (cfg : SecCfgV4), cfg.algo = none →
      write_seccfg sej create downloadOk cfg = (none, [])) := by
  refine ⟨?_, rfl, ?_, ?_⟩
  · intro sej e a d
    cases a <;> rfl
  · intro sej cfg cfg' h
    unfold parse_seccfg SECCFG_ALGOS parse_seccfg_algos at h
    cases h1 : seccfg_try sej false .SW cfg.encrypted_hash with
    | none => rw [h1] at h; cases h
    | some d1 =>
      rw [h1] at h
      dsimp only at h
      by_cases hd1 : d1 = cfg.hash
      · rw [if_pos hd1] at h
        injection h with h'
        refine ⟨.SW, h'.symm, by rw [h1, hd1], ?_⟩
        intro b hb
        exfalso
        cases b <;> simp [algoIdx] at hb
      · rw [if_neg hd1] at h
        unfold parse_seccfg_algos at h
        cases h2 : seccfg_try sej false .HW cfg.encrypted_hash with
        | none => rw [h2] at h; cases h
        | some d2 =>
          rw [h2] at h
          dsimp only at h
          by_cases hd2 : d2 = cfg.hash
          · rw [if_pos hd2] at h
            injection h with h'
            refine ⟨.HW, h'.symm, by rw [h2, hd2], ?_⟩
            intro b hb
            cases b with
            | SW => exact ⟨d1, h1, hd1⟩
            | HW => simp [algoIdx] at hb
            | HWv3 => simp [algoIdx] at hb
            | HWv4 => simp [algoIdx] at hb
          · rw [if_neg hd2] at h
            unfold parse_seccfg_algos at h
            cases h3 : seccfg_try sej false .HWv3 cfg.encrypted_hash with
            | none => rw [h3] at h; cases h
            | some d3 =>
              rw [h3] at h
              dsimp only at h
              by_cases hd3 : d3 = cfg.hash
              · rw [if_pos hd3] at h
                injection h with h'
                refine ⟨.HWv3, h'.symm, by rw [h3, hd3], ?_⟩
                intro b hb
                cases b with
                | SW => exact ⟨d1, h1, hd1⟩
                | HW => exact ⟨d2, h2, hd2⟩
                | HWv3 => simp [algoIdx] at hb
                | HWv4 => simp [algoIdx] at hb
              · rw [if_neg hd3] at h
                unfold parse_seccfg_algos at h
                cases h4 : seccfg_try sej false .HWv4 cfg.encrypted_hash with
                | none => rw [h4] at h; cases h
                | some d4 =>
                  rw [h4] at h
                  dsimp only at h
                  by_cases hd4 : d4 = cfg.hash
                  · rw [if_pos hd4] at h
                    injection h with h'
                    refine ⟨.HWv4, h'.symm, by rw [h4, hd4], ?_⟩
                    intro b hb
                    cases b with
                    | SW => exact ⟨d1, h1, hd1⟩
                    | HW => exact ⟨d2, h2, hd2⟩
                    | HWv3 => exact ⟨d3, h3, hd3⟩
                    | HWv4 => simp [algoIdx] at hb
                  · rw [if_neg hd4] at h
                    cases h
  · intro sej create downloadOk cfg h
    unfold write_seccfg
    rw [h]

/-- Witness for `seccfg_correct` at a concrete input: an identity `sej`
oracle makes the SW algorithm match immediately, and a config without a
memoised algorithm is refused by `write_seccfg`. -/
theorem seccfg_correct_witness :
    (∃ a, (⟨[1], [1], some .SW⟩ : SecCfgV4) =
        { (⟨[1], [1], none⟩ : SecCfgV4) with algo := some a } ∧
      seccfg_try (fun _ _ _ _ d => some d) false a
          (⟨[1], [1], none⟩ : SecCfgV4).encrypted_hash =
        some (⟨[1], [1], none⟩ : SecCfgV4).hash ∧
      ∀ b, algoIdx b < algoIdx a →
        ∃ d, seccfg_try (fun _ _ _ _ d => some d) false b
            (⟨[1], [1], none⟩ : SecCfgV4).encrypted_hash = some d ∧
          d ≠ (⟨[1], [1], none⟩ : SecCfgV4).hash) ∧
    write_seccfg (fun _ _ _ _ d => some d) (fun c => c.hash) (fun _ => true)
      ⟨[1], [1], none⟩ = (none, []) :=
  ⟨seccfg_correct.2.2.1 (fun _ _ _ _ d => some d) ⟨[1], [1], none⟩
      ⟨[1], [1], some .SW⟩ rfl,
    seccfg_correct.2.2.2 (fun _ _ _ _ d => some d) (fun c => c.hash) (fun _ => true)
      ⟨[1], [1], none⟩ rfl⟩

/-! ## Supporting lemmas: `contains_bytes` and substrings -/

theorem occurs_in_iff_window (pat data : List Nat) :
    occurs_in pat data ↔
      ∃ i, i + pat.length ≤ data.length ∧ window_at data i pat.length = pat := by
  constructor
  · rintro ⟨s, t, rfl⟩
    refine ⟨s.length, by simp, ?_⟩
    unfold window_at
    rw [List.append_assoc, List.drop_left, List.take_left]
  · rintro ⟨i, hi, hw⟩
    refine ⟨data.take i, data.drop (i + pat.length), ?_⟩
    unfold window_at at hw
    have h3 : data.drop i = pat ++ data.drop (i + pat.length) := by
      conv_lhs => rw [← List.take_append_drop pat.length (data.drop i)]
      rw [hw, List.drop_drop]
    rw [List.append_assoc, ← h3, List.take_append_drop]

theorem contains_bytes_iff (data pat : List Nat) (hp : pat ≠ [])
    (hd : data.length < HEX_NOT_FOUND) :
    (contains_bytes data pat ≠ HEX_NOT_FOUND ↔ occurs_in pat data) := by
  have hplen : 0 < pat.length := by
    cases pat with
    | nil => cases hp rfl
    | cons a l => simp
  unfold HEX_NOT_FOUND at hd
  unfold contains_bytes
  by_cases hde : data.isEmpty = true ∨ pat.length > data.length
  · rw [if_pos hde]
    constructor
    · intro h
      cases h rfl
    · intro hocc
      obtain ⟨i, hi, -⟩ := (occurs_in_iff_window pat data).mp hocc
      exfalso
      rcases hde with h | h
      · rw [List.isEmpty_iff] at h
        subst h
        rw [List.length_nil] at hi
        omega
      · omega
  · rw [if_neg hde]
    push_neg at hde
    cases hf : (List.range' 0 (data.length + 1 - pat.length)).find?
        (fun i => window_at data i pat.length == pat) with
    | none =>
      have hnone := List.find?_eq_none.mp hf
      dsimp only
      constructor
      · intro h
        cases h rfl
      · intro hocc
        obtain ⟨i, hi, hw⟩ := (occurs_in_iff_window pat data).mp hocc
        have hmem : i ∈ List.range' 0 (data.length + 1 - pat.length) :=
          List.mem_range'_1.mpr ⟨by omega, by omega⟩
        have := hnone i hmem
        simp [hw] at this
    | some j =>
      have hj0 := List.find?_some hf
      have hjm := List.mem_of_find?_eq_some hf
      have hjr := List.mem_range'_1.mp hjm
      have hw : window_at data j pat.length = pat := by simpa using hj0
      dsimp only
      constructor
      · intro _
        exact (occurs_in_iff_window pat data).mpr ⟨j, by omega, hw⟩
      · intro _
        unfold HEX_NOT_FOUND
        omega

/-! ## Claim C4 — `AuthManager::can_sign` / `AuthManager::sign` -/

/-- **C4**: `can_sign` returns true iff some registered signer has a key
whose big-endian modulus bytes occur as a contiguous substring of
`req.pubk_mod`; `sign` dispatches to the first such signer in registration
order, and when no registered signer can sign it returns the
`Could not find any signer` Penumbra error.  (Moduli are nonempty byte
strings — `BigUint::to_bytes_be` never returns an empty vector — and the
buffer is shorter than `usize::MAX`.) -/
theorem auth_manager_correct :
    (∀ (signers : List Keyring) (req : SignRequest),
      req.pubk_mod.length < HEX_NOT_FOUND →
      (∀ kr ∈ signers, ∀ k ∈ kr, k ≠ []) →
      (auth_can_sign signers req = true ↔
        ∃ kr ∈ signers, ∃ k ∈ kr, occurs_in k req.pubk_mod)) ∧
    (∀ (rsaEnc : List Nat → List Nat → List Nat) (signers : List Keyring)
      (req : SignRequest), auth_can_sign signers req = false →
      auth_sign rsaEnc signers req = .error "Could not find any signer") ∧
    (∀ (rsaEnc : List Nat → List Nat → List Nat) (signers : List Keyring)
      (req : SignRequest), auth_can_sign signers req = true →
      ∃ i, i < signers.length ∧ keyring_can_sign (signers.getD i []) req = true ∧
        (∀ j, j < i → keyring_can_sign (signers.getD j []) req = false) ∧
        auth_sign rsaEnc signers req = keyring_sign rsaEnc (signers.getD i []) req) := by
  refine ⟨?_, ?_, ?_⟩
  · intro signers req hlen hne
    unfold auth_can_sign
    rw [List.any_eq_true]
    constructor
    · rintro ⟨kr, hkr, hcan⟩
      unfold keyring_can_sign at hcan
      rw [List.any_eq_true] at hcan
      obtain ⟨k, hk, hcb⟩ := hcan
      rw [bne_iff_ne] at hcb
      exact ⟨kr, hkr,
        k, hk, (contains_bytes_iff req.pubk_mod k (hne kr hkr k hk) hlen).mp hcb⟩
    · rintro ⟨kr, hkr, k, hk, hocc⟩
      refine ⟨kr, hkr, ?_⟩
      unfold keyring_can_sign
      rw [List.any_eq_true]
      refine ⟨k, hk, ?_⟩
      rw [bne_iff_ne]
      exact (contains_bytes_iff req.pubk_mod k (hne kr hkr k hk) hlen).mpr hocc
  · intro rsaEnc signers req h
    unfold auth_sign
    have : signers.find? (fun s => keyring_can_sign s req) = none := by
      rw [List.find?_eq_none]
      intro kr hkr hcan
      unfold auth_can_sign at h
      rw [List.any_eq_false] at h
      exact h kr hkr hcan
    rw [this]
  · intro rsaEnc signers req h
    induction signers with
    | nil => cases h
    | cons s rest ih =>
      cases hs : keyring_can_sign s req with
      | true =>
        refine ⟨0, by simp, by simpa using hs, fun j hj => absurd hj (by omega), ?_⟩
        simp [auth_sign, List.find?_cons, hs]
      | false =>
        have hrest : auth_can_sign rest req = true := by
          unfold auth_can_sign at h ⊢
          rw [List.any_cons, hs] at h
          simpa using h
        obtain ⟨i, hi, hcan, hfirst, heq⟩ := ih hrest
        refine ⟨i + 1, by simp; omega, by simpa using hcan, ?_, ?_⟩
        · intro j hj
          cases j with
          | zero => simpa using hs
          | succ j => simpa using hfirst j (by omega)
        · unfold auth_sign at heq
          simp only [auth_sign, List.find?_cons, hs]
          simpa using heq

/-- Witness for `auth_manager_correct`: one signer whose single key `[1, 2]`
occurs inside the public modulus `[0, 1, 2, 3]`. -/
theorem auth_manager_correct_witness :
    auth_can_sign [[[1, 2]]] ⟨⟨[], [], [], []⟩, .BromSla, [0, 1, 2, 3]⟩ = true :=
  (auth_manager_correct.1 [[[1, 2]]] ⟨⟨[], [], [], []⟩, .BromSla, [0, 1, 2, 3]⟩
      (by decide) (by decide)).mpr
    ⟨[[1, 2]], by decide, [1, 2], by decide, ⟨[0], [3], rfl⟩⟩

/-! ## Claim C7 — `XmlError::from_message` -/

/-- **C7** (amended): a response whose NUL-stripped text is
`ERR!UNSUPPORTED` maps to kind `UnsupportedCmd` with the fixed message
`Unsupported command` (the original text is *not* preserved); a stripped
`ERR!CANCEL` maps to kind `Cancel` with message `Cancelled`; every other
response maps to an error whose message is the response text with trailing
NULs stripped (and kind `UnsupportedCmd`). -/
theorem xml_from_message_correct (resp : List Char) :
    (strip_nuls resp = String.toList "ERR!UNSUPPORTED" →
      XmlError.from_message resp =
        ⟨String.toList "Unsupported command", .UnsupportedCmd⟩) ∧
    (strip_nuls resp = String.toList "ERR!CANCEL" →
      XmlError.from_message resp = ⟨String.toList "Cancelled", .Cancel⟩) ∧
    (strip_nuls resp ≠ String.toList "ERR!UNSUPPORTED" →
      strip_nuls resp ≠ String.toList "ERR!CANCEL" →
      XmlError.from_message resp = ⟨strip_nuls resp, .UnsupportedCmd⟩) := by
  refine ⟨?_, ?_, ?_⟩
  · intro h
    simp only [XmlError.from_message]
    rw [if_pos h]
  · intro h
    have hne : strip_nuls resp ≠ String.toList "ERR!UNSUPPORTED" := by
      rw [h]
      decide
    simp only [XmlError.from_message]
    rw [if_neg hne, if_pos h]
  · intro h1 h2
    simp only [XmlError.from_message]
    rw [if_neg h1, if_neg h2]

/-- **C7 counterexample**: the response `"ERR!UNSUPPORTED"` is mapped to
kind `UnsupportedCmd` but its message is replaced by
`"Unsupported command"`, so the message is not preserved. -/
theorem xml_from_message_unsupported_cex :
    (XmlError.from_message (String.toList "ERR!UNSUPPORTED")).kind =
      XmlErrorKind.UnsupportedCmd ∧
    (XmlError.from_message (String.toList "ERR!UNSUPPORTED")).message ≠
      String.toList "ERR!UNSUPPORTED" := by decide

/-- Witness for `xml_from_message_correct`: an arbitrary other response is
passed through with its trailing NULs stripped. -/
theorem xml_from_message_correct_witness :
    XmlError.from_message (String.toList "SOME ERROR") =
      ⟨strip_nuls (String.toList "SOME ERROR"), .UnsupportedCmd⟩ :=
  (xml_from_message_correct (String.toList "SOME ERROR")).2.2 (by decide) (by decide)

/-! ## Claim C8 — `XFlashError::from_code` -/

set_option maxRecDepth 8192 in
/-- **C8**: `from_code` always retains the raw code; every code outside the
enumeration yields kind `Unknown`; and every explicitly enumerated code
decomposes as severity 3 (Error) in bits 30–31, a domain between 1 and 8 in
bits 16–23 (bits 24–29 clear) and a case in bits 0–15, per the documented
layout. -/
theorem xflash_from_code_correct :
    (∀ c, (XFlashError.from_code c).code = c) ∧
    (XFlashError.from_code XFLASH_UNKNOWN).kind = XFLASH_UNKNOWN ∧
    (∀ c, c ∉ XFLASH_KNOWN_CODES → c ≠ XFLASH_UNKNOWN →
      (XFlashError.from_code c).kind = XFLASH_UNKNOWN) ∧
    (∀ v ∈ XFLASH_KNOWN_CODES,
      v / 2 ^ 30 = 3 ∧ 1 ≤ v / 2 ^ 16 % 2 ^ 8 ∧ v / 2 ^ 16 % 2 ^ 8 ≤ 8 ∧
        v = 3 * 2 ^ 30 + v / 2 ^ 16 % 2 ^ 8 * 2 ^ 16 + v % 2 ^ 16) := by
  refine ⟨?_, ?_, ?_, by decide⟩
  · intro c
    unfold XFlashError.from_code
    split_ifs <;> rfl
  · unfold XFlashError.from_code
    rw [if_pos (Or.inr rfl)]
  · intro c h1 h2
    unfold XFlashError.from_code
    rw [if_neg ?_]
    rintro (h | h)
    · exact h1 h
    · exact h2 h

set_option maxRecDepth 8192 in
/-- Witness for `xflash_from_code_correct` at the unlisted code
`0x12345678`. -/
theorem xflash_from_code_correct_witness :
    (XFlashError.from_code 0x12345678).code = 0x12345678 ∧
    (XFlashError.from_code 0x12345678).kind = XFLASH_UNKNOWN :=
  ⟨xflash_from_code_correct.1 0x12345678,
    xflash_from_code_correct.2.2.1 0x12345678 (by decide) (by decide)⟩

/-! ## Claim C9 — the known-ports table and device discovery -/

theorem known_ports_distinct_keys :
    ∀ a ∈ KNOWN_PORTS, ∀ b ∈ KNOWN_PORTS, a.1 = b.1 → a.2.1 = b.2.1 →
      a.2.2 = b.2.2 := by decide

theorem lookup_port_mem (vid pid : Nat) (ct : ConnectionType) :
    lookup_port vid pid = some ct ↔ (vid, pid, ct) ∈ KNOWN_PORTS := by
  unfold lookup_port
  cases hf : KNOWN_PORTS.find? (fun e => e.1 == vid && e.2.1 == pid) with
  | none =>
    dsimp only
    constructor
    · intro h
      cases h
    · intro hmem
      have hnone := List.find?_eq_none.mp hf (vid, pid, ct) hmem
      simp at hnone
  | some e =>
    have hp := List.find?_some hf
    have hm := List.mem_of_find?_eq_some hf
    rw [Bool.and_eq_true, beq_iff_eq, beq_iff_eq] at hp
    dsimp only
    constructor
    · intro h
      injection h with h2
      obtain ⟨e1, e2, e3⟩ := e
      dsimp at hp h2
      rw [← hp.1, ← hp.2, ← h2]
      exact hm
    · intro hmem
      exact congrArg some
        (known_ports_distinct_keys e hm (vid, pid, ct) hmem hp.1 hp.2)

/-- **C9**: the known-ports table maps exactly the thirteen claimed
vendor/product pairs to their connection types and nothing else, and
discovery returns the first attached device that matches the table, with
its implied type. -/
theorem find_device_correct :
    (∀ (vid pid : Nat) (ct : ConnectionType),
      lookup_port vid pid = some ct ↔
        ((vid = 0x0E8D ∧ pid = 0x0003 ∧ ct = .Brom) ∨
         (vid = 0x0E8D ∧ pid = 0x6000 ∧ ct = .Preloader) ∨
         (vid = 0x0E8D ∧ pid = 0x2000 ∧ ct = .Preloader) ∨
         (vid = 0x0E8D ∧ pid = 0x2001 ∧ ct = .Da) ∨
         (vid = 0x0E8D ∧ pid = 0x20FF ∧ ct = .Preloader) ∨
         (vid = 0x0E8D ∧ pid = 0x3000 ∧ ct = .Preloader) ∨
         (vid = 0x1004 ∧ pid = 0x6000 ∧ ct = .Preloader) ∨
         (vid = 0x22D9 ∧ pid = 0x0006 ∧ ct = .Preloader) ∨
         (vid = 0x0FCE ∧ pid = 0xF200 ∧ ct = .Brom) ∨
         (vid = 0x0FCE ∧ pid = 0xD1E9 ∧ ct = .Brom) ∨
         (vid = 0x0FCE ∧ pid = 0xD1E2 ∧ ct = .Brom) ∨
         (vid = 0x0FCE ∧ pid = 0xD1EC ∧ ct = .Brom) ∨
         (vid = 0x0FCE ∧ pid = 0xD1DD ∧ ct = .Brom))) ∧
    (∀ (devices : List (Nat × Nat)) (d : Nat × Nat) (ct : ConnectionType),
      find_device devices = some (d, ct) →
      lookup_port d.1 d.2 = some ct ∧
        ∃ i, i < devices.length ∧ devices.getD i (0, 0) = d ∧
          ∀ j, j < i →
            lookup_port (devices.getD j (0, 0)).1 (devices.getD j (0, 0)).2 = none) ∧
    (∀ devices : List (Nat × Nat),
      (∀ d ∈ devices, lookup_port d.1 d.2 = none) → find_device devices = none) := by
  refine ⟨?_, ?_, ?_⟩
  · intro vid pid ct
    rw [lookup_port_mem]
    simp [KNOWN_PORTS, Prod.ext_iff, and_assoc]
  · intro devices d ct h
    induction devices with
    | nil => cases h
    | cons a rest ih =>
      unfold find_device at h
      cases hl : lookup_port a.1 a.2 with
      | some ct2 =>
        rw [hl] at h
        dsimp only at h
        injection h with h2
        injection h2 with ha hc
        subst ha
        subst hc
        exact ⟨hl, 0, by simp, rfl, fun j hj => absurd hj (by omega)⟩
      | none =>
        rw [hl] at h
        dsimp only at h
        obtain ⟨hlk, i, hi, hd, hfirst⟩ := ih h
        refine ⟨hlk, i + 1, by simp only [List.length_cons]; omega,
          by simpa using hd, ?_⟩
        intro j hj
        cases j with
        | zero => simpa using hl
        | succ j => simpa using hfirst j (by omega)
  · intro devices hall
    induction devices with
    | nil => rfl
    | cons a rest ih =>
      unfold find_device
      rw [hall a (List.mem_cons_self a rest)]
      exact ih (fun x hx => hall x (List.mem_cons_of_mem a hx))

/-- Witness for `find_device_correct`: the BROM vendor/product pair maps to
`Brom`, and discovery over no devices finds nothing. -/
theorem find_device_correct_witness :
    lookup_port 0x0E8D 0x0003 = some .Brom ∧ find_device [] = none :=
  ⟨(find_device_correct.1 0x0E8D 0x0003 .Brom).mpr (Or.inl ⟨rfl, rfl, rfl⟩),
    find_device_correct.2.2 [] (fun d hd => absurd hd (List.not_mem_nil d))⟩

end Penumbra
